import Mathlib

/-!
# Compliance-container policy resource

A shallow embedding of `prismacloudcompute/resource_policies_compliance_container.go`:
the schema-to-domain parser `parseComplianceContainerPolicy`, the domain-to-schema
flattener `flattenPolicyComplianceContainerRules`, and the four lifecycle entry points
`createPolicyComplianceContainer`, `readPolicyComplianceContainer`,
`updatePolicyComplianceContainer` and `deletePolicyComplianceContainer`.

Conventions of the embedding.

* A Go `interface{}` is a `Value`.  A failed type assertion `v.(T)` panics in Go; here every
  assertion returns an `Option` and a panic is the result `none`.
* A Go slice field of a domain struct is a `Slice`, which keeps the nil slice apart from an
  allocated slice of length zero.
* The mutable `*schema.ResourceData` and the remote service behind `*pcc.Client` are threaded
  through explicitly; every remote call is appended to a call log.
* An `error` is represented by its message, `nil` by `none`.
* The provider configures `meta` as a `*pcc.Client`, so the assertion `meta.(*pcc.Client)`
  is taken to succeed and the client is passed as a `Client`.
* The constant `policyTypeComplianceContainer` and the helpers `flattenCollections` and
  `flattenComplianceConditions` are declared in other files of the package; the entry points
  take them through an `Env`, and `specEnv` supplies the helpers as the spec describes them.
-/

set_option autoImplicit false

namespace PrismaCloudCompute

/-! ## Dynamic values -/

/-- A Go `interface{}` as it occurs in the declarative configuration tree.  `null` is the nil
interface, which is also what indexing a `map[string]interface{}` at an absent key gives. -/
inductive Value where
  | null
  | str (s : String)
  | bool (b : Bool)
  | int (n : Int)
  | list (xs : List Value)
  | map (m : String → Value)

/-- A Go `map[string]interface{}`, read through indexing only. -/
abbrev GoMap := String → Value

/-- The map made by `make(map[string]interface{})`. -/
def GoMap.empty : GoMap := fun _ => Value.null

/-- The assignment `m[key] = v`. -/
def GoMap.set (m : GoMap) (key : String) (v : Value) : GoMap :=
  fun k => if k = key then v else m k

namespace Value

/-- The type assertion `v.(string)`. -/
def asString : Value → Option String
  | str s => some s
  | _ => none

/-- The type assertion `v.(bool)`. -/
def asBool : Value → Option Bool
  | bool b => some b
  | _ => none

/-- The type assertion `v.(int)`. -/
def asInt : Value → Option Int
  | int n => some n
  | _ => none

/-- The type assertion `v.([]interface{})`. -/
def asList : Value → Option (List Value)
  | list xs => some xs
  | _ => none

/-- The type assertion `v.(map[string]interface{})`. -/
def asMap : Value → Option GoMap
  | map m => some m
  | _ => none

/-- Reading field `key` of a value that is a map; `null` for anything else. -/
def field (v : Value) (key : String) : Value :=
  match v with
  | map m => m key
  | _ => null

/-- Whether a list-typed attribute holds its zero value (unset, or the empty list). -/
def isZeroList : Value → Bool
  | null => true
  | list [] => true
  | _ => false

end Value

/-! ## Domain structs (the fields of the client library's types that this file touches) -/

/-- A Go slice: the nil slice, or an allocated slice with the given elements. -/
inductive Slice (α : Type) where
  | nil
  | mk (elems : List α)
  deriving DecidableEq, Repr

/-- The elements a `for range` loop over the slice visits. -/
def Slice.toList {α : Type} : Slice α → List α
  | Slice.nil => []
  | Slice.mk xs => xs

/-- The struct `collection.Collection`; this file reads and writes its `Name` only. -/
structure Collection where
  Name : String
  deriving DecidableEq, Repr

/-- The struct `policy.ComplianceCheck`. -/
structure ComplianceCheck where
  Block : Bool
  Id : Int
  deriving DecidableEq, Repr

/-- The struct `policy.ComplianceConditions`. -/
structure ComplianceConditions where
  Checks : Slice ComplianceCheck
  deriving DecidableEq, Repr

/-- The struct `policy.ComplianceRule`. -/
structure ComplianceRule where
  BlockMessage : String
  Collections : Slice Collection
  Conditions : ComplianceConditions
  Disabled : Bool
  Effect : String
  Name : String
  Notes : String
  ShowPassedChecks : Bool
  Verbose : Bool
  deriving DecidableEq, Repr

/-- The struct `policy.CompliancePolicy`; the Go field `Type` is spelled `Type_`. -/
structure CompliancePolicy where
  Type_ : String
  Rules : Slice ComplianceRule
  deriving DecidableEq, Repr

/-! ## What the file uses but does not define -/

/-- The declarations of the package that the file refers to and that live in other files:
the constant `policyTypeComplianceContainer` and the two flatten helpers. -/
structure Env where
  policyTypeComplianceContainer : String
  flattenCollections : Slice Collection → Value
  flattenComplianceConditions : ComplianceConditions → Value

/-- The host framework's verdict on `d.Set(key, value)`: `verdict` is the error it reports
(`none` when the write is accepted) and `residue key old value` is what the attribute holds
after a rejected write.  An accepted write stores the value. -/
structure Framework where
  verdict : String → Value → Option String
  residue : String → Value → Value → Value

/-- The `*schema.ResourceData` handed to a lifecycle call: the managed identifier and the
attribute values `d.Get` reads and `d.Set` writes. -/
structure ResourceData where
  id : String
  attrs : String → Value

namespace ResourceData

/-- The framework call `d.GetOk(key)` for a list-typed attribute: the value, and whether it is
set to something other than the zero value. -/
def GetOk (d : ResourceData) (key : String) : Value × Bool :=
  (d.attrs key, !(d.attrs key).isZeroList)

/-- The framework call `d.SetId(id)`. -/
def SetId (d : ResourceData) (id : String) : ResourceData :=
  { d with id := id }

/-- The framework call `d.Set(key, value)`; touches attribute `key` only. -/
def Set (fw : Framework) (d : ResourceData) (key : String) (value : Value) :
    Option String × ResourceData :=
  match fw.verdict key value with
  | none => (none, { d with attrs := GoMap.set d.attrs key value })
  | some e => (some e, { d with attrs := GoMap.set d.attrs key (fw.residue key (d.attrs key) value) })

end ResourceData

/-- One call on the remote client. -/
inductive Call where
  | update (p : CompliancePolicy)
  | get
  deriving DecidableEq, Repr

/-- The behaviour of the remote service reached through `*pcc.Client`, over an arbitrary
service state `σ`: `policy.UpdateComplianceContainer` and `policy.GetComplianceContainer`. -/
structure Client (σ : Type) where
  UpdateComplianceContainer : σ → CompliancePolicy → Option String × σ
  GetComplianceContainer : σ → CompliancePolicy × Option String × σ

/-- The remote service state together with the log of the calls made so far. -/
structure World (σ : Type) where
  remote : σ
  calls : List Call

/-- What a lifecycle call leaves behind: the returned error, the resource data and the world. -/
structure Outcome (σ : Type) where
  err : Option String
  d : ResourceData
  w : World σ

/-- Performing `policy.UpdateComplianceContainer(*client, p)`. -/
def World.update {σ : Type} (client : Client σ) (w : World σ) (p : CompliancePolicy) :
    Option String × World σ :=
  ((client.UpdateComplianceContainer w.remote p).1,
    { remote := (client.UpdateComplianceContainer w.remote p).2, calls := w.calls ++ [Call.update p] })

/-- Performing `policy.GetComplianceContainer(*client)`. -/
def World.get {σ : Type} (client : Client σ) (w : World σ) :
    CompliancePolicy × Option String × World σ :=
  ((client.GetComplianceContainer w.remote).1, (client.GetComplianceContainer w.remote).2.1,
    { remote := (client.GetComplianceContainer w.remote).2.2, calls := w.calls ++ [Call.get] })

/-! ## parseComplianceContainerPolicy -/

/-- The loop over `collectionsList` (source lines 180-185): each iteration asserts the element
to be a string and appends one name-only collection, so the result follows the input order. -/
def parseCollections : List Value → Option (List Collection)
  | [] => some []
  | val :: rest => do
    let name ← val.asString
    let parsedCollection : Collection := { Name := name }
    let tail ← parseCollections rest
    pure (parsedCollection :: tail)

/-- The loop over `complianceChecksList` (source lines 194-201): each iteration appends one
parsed check, so the result follows the input order. -/
def parseComplianceChecks : List Value → Option (List ComplianceCheck)
  | [] => some []
  | val :: rest => do
    let complianceCheck ← val.asMap
    let block ← (complianceCheck "block").asBool
    let id ← (complianceCheck "id").asInt
    let parsedComplianceCheck : ComplianceCheck := { Block := block, Id := id }
    let tail ← parseComplianceChecks rest
    pure (parsedComplianceCheck :: tail)

/-- The loop over `conditionsList` (source lines 190-203): every block overwrites
`parsedConditions.Checks`. -/
def parseConditions (parsedConditions : ComplianceConditions) :
    List Value → Option ComplianceConditions
  | [] => some parsedConditions
  | val :: rest => do
    let condition ← val.asMap
    let complianceChecksList ← (condition "compliance_check").asList
    let parsedComplianceChecks ← parseComplianceChecks complianceChecksList
    parseConditions { parsedConditions with Checks := Slice.mk parsedComplianceChecks } rest

/-- The body of the loop over `rulesList` (source lines 173-211). -/
def parseRule (val : Value) : Option ComplianceRule := do
  let rule ← val.asMap
  let blockMessage ← (rule "block_message").asString
  let collectionsList ← (rule "collections").asList
  let parsedCollections ← parseCollections collectionsList
  let conditionsList ← (rule "conditions").asList
  let parsedConditions ← parseConditions { Checks := Slice.nil } conditionsList
  let disabled ← (rule "disabled").asBool
  let effect ← (rule "effect").asString
  let name ← (rule "name").asString
  let notes ← (rule "notes").asString
  let showPassedChecks ← (rule "show_passed_checks").asBool
  let verbose ← (rule "verbose").asBool
  pure {
    BlockMessage := blockMessage
    Collections := Slice.mk parsedCollections
    Conditions := parsedConditions
    Disabled := disabled
    Effect := effect
    Name := name
    Notes := notes
    ShowPassedChecks := showPassedChecks
    Verbose := verbose }

/-- The loop over `rulesList` (source lines 172-214): each iteration appends one parsed rule,
so the result follows the input order. -/
def parseRules : List Value → Option (List ComplianceRule)
  | [] => some []
  | val :: rest => do
    let parsedRule ← parseRule val
    let tail ← parseRules rest
    pure (parsedRule :: tail)

/-- The function `parseComplianceContainerPolicy`: `none` is a panic, otherwise the returned
pair of a policy pointer (`none` for nil) and an error (`none` for nil). -/
def parseComplianceContainerPolicy (env : Env) (d : ResourceData) :
    Option (Option CompliancePolicy × Option String) :=
  let parsedPolicy : CompliancePolicy :=
    { Type_ := env.policyTypeComplianceContainer, Rules := Slice.mk [] }
  match d.GetOk "rule" with
  | (rules, true) => do
    let rulesList ← rules.asList
    let parsedRules ← parseRules rulesList
    pure (some { parsedPolicy with Rules := Slice.mk parsedRules }, none)
  | (_, false) => some (some parsedPolicy, none)

/-! ## flattenPolicyComplianceContainerRules -/

/-- The body of the loop in `flattenPolicyComplianceContainerRules` (source lines 223-233). -/
def flattenRule (env : Env) (val : ComplianceRule) : Value :=
  let m := GoMap.empty
  let m := m.set "block_message" (Value.str val.BlockMessage)
  let m := m.set "collections" (env.flattenCollections val.Collections)
  let m := m.set "conditions" (env.flattenComplianceConditions val.Conditions)
  let m := m.set "disabled" (Value.bool val.Disabled)
  let m := m.set "effect" (Value.str val.Effect)
  let m := m.set "name" (Value.str val.Name)
  let m := m.set "notes" (Value.str val.Notes)
  let m := m.set "show_passed_checks" (Value.bool val.ShowPassedChecks)
  let m := m.set "verbose" (Value.bool val.Verbose)
  Value.map m

/-- The function `flattenPolicyComplianceContainerRules`. -/
def flattenPolicyComplianceContainerRules (env : Env) (rules : Slice ComplianceRule) :
    List Value :=
  rules.toList.map (flattenRule env)

/-! ## Lifecycle entry points -/

/-- The function `readPolicyComplianceContainer`. -/
def readPolicyComplianceContainer {σ : Type} (env : Env) (fw : Framework) (client : Client σ)
    (d : ResourceData) (w : World σ) : Outcome σ :=
  match w.get client with
  | (_, some err, w1) =>
    { err := some ("error reading " ++ env.policyTypeComplianceContainer ++ " policy: " ++ err),
      d := d, w := w1 }
  | (retrievedPolicy, none, w1) =>
    match d.Set fw "rule"
        (Value.list (flattenPolicyComplianceContainerRules env retrievedPolicy.Rules)) with
    | (some err, d1) =>
      { err := some ("error reading " ++ env.policyTypeComplianceContainer ++ " policy: " ++ err),
        d := d1, w := w1 }
    | (none, d1) => { err := none, d := d1, w := w1 }

/-- The function `createPolicyComplianceContainer`; `none` is a panic. -/
def createPolicyComplianceContainer {σ : Type} (env : Env) (fw : Framework) (client : Client σ)
    (d : ResourceData) (w : World σ) : Option (Outcome σ) :=
  match parseComplianceContainerPolicy env d with
  | none => none
  | some (_, some err) =>
    some { err := some ("error creating " ++ env.policyTypeComplianceContainer ++ " policy: " ++ err),
           d := d, w := w }
  | some (none, none) => none
  | some (some parsedPolicy, none) =>
    match w.update client parsedPolicy with
    | (some err, w1) =>
      some { err := some ("error creating " ++ env.policyTypeComplianceContainer ++ " policy: " ++ err),
             d := d, w := w1 }
    | (none, w1) =>
      some (readPolicyComplianceContainer env fw client
        (d.SetId env.policyTypeComplianceContainer) w1)

/-- The function `updatePolicyComplianceContainer`; `none` is a panic. -/
def updatePolicyComplianceContainer {σ : Type} (env : Env) (fw : Framework) (client : Client σ)
    (d : ResourceData) (w : World σ) : Option (Outcome σ) :=
  match parseComplianceContainerPolicy env d with
  | none => none
  | some (_, some err) =>
    some { err := some ("error updating " ++ env.policyTypeComplianceContainer ++ " policy: " ++ err),
           d := d, w := w }
  | some (none, none) => none
  | some (some parsedPolicy, none) =>
    match w.update client parsedPolicy with
    | (some err, w1) =>
      some { err := some ("error updating " ++ env.policyTypeComplianceContainer ++ " policy: " ++ err),
             d := d, w := w1 }
    | (none, w1) => some (readPolicyComplianceContainer env fw client d w1)

/-- The function `deletePolicyComplianceContainer`. -/
def deletePolicyComplianceContainer {σ : Type} (_client : Client σ) (d : ResourceData)
    (w : World σ) : Outcome σ :=
  { err := none, d := d, w := w }

/-! ## The flatten helpers, which live in another file of the package -/

/-- Modelled from the spec: the helper `flattenCollections`, which this file calls and another
file of the package defines.  The spec has collections referenced "by name only", so a slice of
collections flattens to the list of their names, in order. -/
def flattenCollections (collections : Slice Collection) : Value :=
  Value.list (collections.toList.map fun val => Value.str val.Name)

/-- Modelled from the spec: the flattening of one check inside `flattenComplianceConditions`,
which another file of the package defines.  The spec has a check be "a check identifier
(integer) plus a block flag", so a check flattens to a map with its `block` flag and `id`. -/
def flattenComplianceCheck (val : ComplianceCheck) : Value :=
  Value.map ((GoMap.empty.set "block" (Value.bool val.Block)).set "id" (Value.int val.Id))

/-- Modelled from the spec: the helper `flattenComplianceConditions`, which this file calls and
another file of the package defines.  The spec calls flatten the "inverse mapping" of the
parser and has a rule's conditions be a "collapsed list of size ≤1 in the declarative form but
stored as a direct struct".  The parser leaves `Checks` the nil slice when the list holds no
block and allocates it when the list holds one, so the inverse gives no block for the nil slice
and, for an allocated slice, one block whose `compliance_check` list has one entry per check,
in order. -/
def flattenComplianceConditions (conditions : ComplianceConditions) : Value :=
  match conditions.Checks with
  | Slice.nil => Value.list []
  | Slice.mk checks =>
    Value.list [Value.map (GoMap.empty.set "compliance_check"
      (Value.list (checks.map flattenComplianceCheck)))]

/-- The environment in which the two helpers are the ones modelled from the spec. -/
def specEnv (policyType : String) : Env :=
  { policyTypeComplianceContainer := policyType
    flattenCollections := flattenCollections
    flattenComplianceConditions := flattenComplianceConditions }

/-! ## Well-typed and well-formed configurations -/

/-- A `compliance_check` entry of the schema's type: a map with a boolean `block` and an
integer `id`. -/
def wellTypedCheck : Value → Bool
  | Value.map m => (m "block").asBool.isSome && (m "id").asInt.isSome
  | _ => false

/-- A `conditions` block of the schema's type: a map whose `compliance_check` is a list of
well-typed checks. -/
def wellTypedCondition : Value → Bool
  | Value.map m =>
    match m "compliance_check" with
    | Value.list cs => cs.all wellTypedCheck
    | _ => false
  | _ => false

/-- Whether a value is a list of strings. -/
def isStringList : Value → Bool
  | Value.list cs => cs.all fun c => c.asString.isSome
  | _ => false

/-- Whether a value is a list of well-typed `conditions` blocks. -/
def isConditionList : Value → Bool
  | Value.list bs => bs.all wellTypedCondition
  | _ => false

/-- A `rule` block of the schema's type (source lines 37-110): every one of the nine fields is
present with the type the schema declares. -/
def wellTypedRule : Value → Bool
  | Value.map m =>
    (m "block_message").asString.isSome
    && isStringList (m "collections")
    && isConditionList (m "conditions")
    && (m "disabled").asBool.isSome
    && (m "effect").asString.isSome
    && (m "name").asString.isSome
    && (m "notes").asString.isSome
    && (m "show_passed_checks").asBool.isSome
    && (m "verbose").asBool.isSome
  | _ => false

/-- A configuration of the schema's type: the `rule` attribute is unset or a list of
well-typed rules. -/
def wellTypedConfig (d : ResourceData) : Bool :=
  match d.attrs "rule" with
  | Value.null => true
  | Value.list rs => rs.all wellTypedRule
  | _ => false

/-- The map has no entry outside `keys`. -/
def OnlyKeys (m : GoMap) (keys : List String) : Prop :=
  ∀ k, k ∉ keys → m k = Value.null

/-- The keys of a `rule` block. -/
def ruleKeys : List String :=
  ["block_message", "collections", "conditions", "disabled", "effect", "name", "notes",
    "show_passed_checks", "verbose"]

/-- A well-formed `compliance_check` entry: well typed, with no further keys. -/
def WellFormedCheck (v : Value) : Prop :=
  wellTypedCheck v = true ∧ ∀ m, v = Value.map m → OnlyKeys m ["block", "id"]

/-- A well-formed `conditions` block: well typed, with no further keys, every check well
formed. -/
def WellFormedCondition (v : Value) : Prop :=
  wellTypedCondition v = true ∧
    ∀ m, v = Value.map m → OnlyKeys m ["compliance_check"] ∧
      ∀ cs, m "compliance_check" = Value.list cs → ∀ c ∈ cs, WellFormedCheck c

/-- A well-formed `rule` block: well typed, with exactly the nine keys of the schema, at most
one `conditions` block (the schema's `MaxItems: 1`), every block well formed. -/
def WellFormedRule (v : Value) : Prop :=
  wellTypedRule v = true ∧
    ∀ m, v = Value.map m → OnlyKeys m ruleKeys ∧
      ∀ bs, m "conditions" = Value.list bs → bs.length ≤ 1 ∧ ∀ b ∈ bs, WellFormedCondition b

/-! ## Sample data -/

/-- The policy-type constant used in the samples. -/
def samplePolicyType : String := "complianceContainer"

/-- The check `{id: 14, block: true}`. -/
def sampleCheck : Value :=
  Value.map ((GoMap.empty.set "block" (Value.bool true)).set "id" (Value.int 14))

/-- The block `{compliance_check: [{id: 14, block: true}]}`. -/
def sampleCondition : Value :=
  Value.map (GoMap.empty.set "compliance_check" (Value.list [sampleCheck]))

/-- A rule map with the given name, effect, collections and conditions, and the zero value in
every other field. -/
def sampleRuleMap (name effect : String) (collections conditions : List Value) : GoMap :=
  ((((((((GoMap.empty.set "block_message" (Value.str "")).set "collections"
    (Value.list collections)).set "conditions" (Value.list conditions)).set "disabled"
    (Value.bool false)).set "effect" (Value.str effect)).set "name" (Value.str name)).set "notes"
    (Value.str "")).set "show_passed_checks" (Value.bool false)).set "verbose" (Value.bool false)

/-- The rule `r1` of the spec's example. -/
def sampleRule : Value :=
  Value.map (sampleRuleMap "r1" "block" [Value.str "prod"] [sampleCondition])

/-- A rule `r0` with no `conditions` block and no collections. -/
def bareRule : Value :=
  Value.map (sampleRuleMap "r0" "alert" [] [])

/-- A framework that accepts every write. -/
def acceptAll : Framework :=
  { verdict := fun _ _ => none, residue := fun _ old _ => old }

/-- A remote service whose every call fails with the message `boom`. -/
def failingClient : Client Unit :=
  { UpdateComplianceContainer := fun s _ => (some "boom", s)
    GetComplianceContainer := fun s => ({ Type_ := "", Rules := Slice.nil }, some "boom", s) }

/-- A remote service that accepts updates and whose get fails with the message `boom`. -/
def readFailingClient : Client Unit :=
  { UpdateComplianceContainer := fun s _ => (none, s)
    GetComplianceContainer := fun s => ({ Type_ := "", Rules := Slice.nil }, some "boom", s) }

/-- The remote service as a store: update replaces the stored policy and get returns it. -/
def storeClient : Client CompliancePolicy :=
  { UpdateComplianceContainer := fun _ p => (none, p)
    GetComplianceContainer := fun s => (s, none, s) }

/-- The resource data a repeated call receives: the state the previous call left, with the
configuration `d` carried in the `rule` attribute in place again. -/
def resupply (d : ResourceData) (left : ResourceData) : ResourceData :=
  { id := left.id, attrs := GoMap.set left.attrs "rule" (d.attrs "rule") }

/-- The text `part` occurs in `text`. -/
def containsText (text part : String) : Prop :=
  ∃ pre post : String, text = pre ++ part ++ post

/-- The parsed form of the spec's example rule `r1`. -/
def sampleParsedRule : ComplianceRule :=
  { BlockMessage := "", Collections := Slice.mk [{ Name := "prod" }],
    Conditions := { Checks := Slice.mk [{ Block := true, Id := 14 }] },
    Disabled := false, Effect := "block", Name := "r1", Notes := "",
    ShowPassedChecks := false, Verbose := false }

/-- The policy parsed from the spec's example rule. -/
def samplePolicy : CompliancePolicy :=
  { Type_ := samplePolicyType, Rules := Slice.mk [sampleParsedRule] }

/-- Resource data with the given identifier whose `rule` attribute is the given list. -/
def dataWith (id : String) (rules : List Value) : ResourceData :=
  { id := id, attrs := GoMap.empty.set "rule" (Value.list rules) }

/-! ## Relations between configuration values and their parsed forms -/

/-- What a check and its parsed form have in common. -/
def CheckAgrees (c : Value) (k : ComplianceCheck) : Prop :=
  ∃ m, c = Value.map m ∧ m "block" = Value.bool k.Block ∧ m "id" = Value.int k.Id

/-- What a `conditions` block and the checks parsed from it have in common. -/
def BlockAgrees (b : Value) (ks : List ComplianceCheck) : Prop :=
  ∃ m cs, b = Value.map m ∧ m "compliance_check" = Value.list cs ∧
    parseComplianceChecks cs = some ks ∧ List.Forall₂ CheckAgrees cs ks

/-- What a rule map and its parsed form have in common. -/
def RuleAgrees (m : GoMap) (r : ComplianceRule) : Prop :=
  m "block_message" = Value.str r.BlockMessage ∧
  (∃ names : List String, m "collections" = Value.list (names.map Value.str) ∧
    r.Collections = Slice.mk (names.map fun n => { Name := n })) ∧
  (∃ bs, m "conditions" = Value.list bs ∧ bs.all wellTypedCondition = true ∧
    parseConditions { Checks := Slice.nil } bs = some r.Conditions) ∧
  m "disabled" = Value.bool r.Disabled ∧
  m "effect" = Value.str r.Effect ∧
  m "name" = Value.str r.Name ∧
  m "notes" = Value.str r.Notes ∧
  m "show_passed_checks" = Value.bool r.ShowPassedChecks ∧
  m "verbose" = Value.bool r.Verbose

/-- What a rule value and its parsed form have in common. -/
def RuleParsed (v : Value) (r : ComplianceRule) : Prop :=
  ∃ m, v = Value.map m ∧ parseRule v = some r ∧ RuleAgrees m r

/-- The scalar fields of a rule. -/
def scalarKeys : List String :=
  ["block_message", "disabled", "effect", "name", "notes", "show_passed_checks", "verbose"]

/-! ## Auxiliary facts about the assertions and the parser loops -/

/-- A value that passes the string assertion is a string. -/
theorem asString_of_isSome {v : Value} (h : v.asString.isSome = true) :
    ∃ s, v = Value.str s := by
  cases v <;> simp [Value.asString] at h ⊢

/-- A value that passes the boolean assertion is a boolean. -/
theorem asBool_of_isSome {v : Value} (h : v.asBool.isSome = true) :
    ∃ b, v = Value.bool b := by
  cases v <;> simp [Value.asBool] at h ⊢

/-- A value that passes the integer assertion is an integer. -/
theorem asInt_of_isSome {v : Value} (h : v.asInt.isSome = true) :
    ∃ n, v = Value.int n := by
  cases v <;> simp [Value.asInt] at h ⊢

/-- A list of strings is a list, each element of which passes the string assertion. -/
theorem isStringList_elim {v : Value} (h : isStringList v = true) :
    ∃ cs, v = Value.list cs ∧ cs.all (fun c => c.asString.isSome) = true := by
  cases v <;> simp [isStringList] at h ⊢
  exact h

/-- A list of well-typed blocks is a list, each element of which is a well-typed block. -/
theorem isConditionList_elim {v : Value} (h : isConditionList v = true) :
    ∃ bs, v = Value.list bs ∧ bs.all wellTypedCondition = true := by
  cases v <;> simp [isConditionList] at h ⊢
  exact h

/-- Positionwise relation between two lists, read off by index. -/
theorem forall₂_getElem? {α β : Type} {R : α → β → Prop} {l₁ : List α} {l₂ : List β}
    (h : List.Forall₂ R l₁ l₂) (i : Nat) (a : α) (ha : l₁[i]? = some a) :
    ∃ b, l₂[i]? = some b ∧ R a b := by
  induction h generalizing i with
  | nil => simp at ha
  | cons hab _ ih =>
    cases i with
    | zero =>
      simp only [List.getElem?_cons_zero, Option.some.injEq] at ha
      subst ha
      exact ⟨_, by simp, hab⟩
    | succ j =>
      simp only [List.getElem?_cons_succ] at ha
      simpa using ih j ha

/-- A list of strings parses to the name-only collections, in order. -/
theorem parseCollections_ok (cs : List Value)
    (h : cs.all (fun c => c.asString.isSome) = true) :
    ∃ names : List String, cs = names.map Value.str ∧
      parseCollections cs = some (names.map fun n => { Name := n }) := by
  induction cs with
  | nil => exact ⟨[], rfl, rfl⟩
  | cons c rest ih =>
    simp only [List.all_cons, Bool.and_eq_true] at h
    obtain ⟨s, rfl⟩ := asString_of_isSome h.1
    obtain ⟨names, hrest, hp⟩ := ih h.2
    refine ⟨s :: names, by simp [hrest], ?_⟩
    simp [parseCollections, Value.asString, hp]

/-- A list of well-typed checks parses, one parsed check per entry, in order. -/
theorem parseComplianceChecks_ok (cs : List Value) (h : cs.all wellTypedCheck = true) :
    ∃ ks, parseComplianceChecks cs = some ks ∧ List.Forall₂ CheckAgrees cs ks := by
  induction cs with
  | nil => exact ⟨[], rfl, List.Forall₂.nil⟩
  | cons c rest ih =>
    simp only [List.all_cons, Bool.and_eq_true] at h
    obtain ⟨ks, hp, hrel⟩ := ih h.2
    cases c with
    | map m =>
      have hc := h.1
      simp only [wellTypedCheck, Bool.and_eq_true] at hc
      obtain ⟨b, hb⟩ := asBool_of_isSome hc.1
      obtain ⟨n, hn⟩ := asInt_of_isSome hc.2
      refine ⟨{ Block := b, Id := n } :: ks, ?_, List.Forall₂.cons ⟨m, rfl, hb, hn⟩ hrel⟩
      simp [parseComplianceChecks, Value.asMap, hb, hn, Value.asBool, Value.asInt, hp]
    | _ => simp [wellTypedCheck] at h

/-- A well-typed block is a map whose checks parse. -/
theorem wellTypedCondition_elim {b : Value} (h : wellTypedCondition b = true) :
    ∃ ks, BlockAgrees b ks := by
  cases b with
  | map m =>
    simp only [wellTypedCondition] at h
    split at h
    · rename_i cs hcs
      obtain ⟨ks, hp, hrel⟩ := parseComplianceChecks_ok cs h
      exact ⟨ks, m, cs, rfl, hcs, hp, hrel⟩
    · simp at h
  | _ => simp [wellTypedCondition] at h

/-- One iteration of the conditions loop overwrites the checks collected so far. -/
theorem parseConditions_cons {b : Value} {ks : List ComplianceCheck} (hb : BlockAgrees b ks)
    (acc : ComplianceConditions) (rest : List Value) :
    parseConditions acc (b :: rest) = parseConditions { Checks := Slice.mk ks } rest := by
  obtain ⟨m, cs, rfl, hcs, hp, _⟩ := hb
  simp [parseConditions, Value.asMap, hcs, Value.asList, hp]

/-- The conditions loop never panics on well-typed blocks. -/
theorem parseConditions_ok (bs : List Value) (h : bs.all wellTypedCondition = true)
    (acc : ComplianceConditions) : ∃ conds, parseConditions acc bs = some conds := by
  induction bs generalizing acc with
  | nil => exact ⟨acc, rfl⟩
  | cons b rest ih =>
    simp only [List.all_cons, Bool.and_eq_true] at h
    obtain ⟨ks, hb⟩ := wellTypedCondition_elim h.1
    rw [parseConditions_cons hb]
    exact ih h.2 _

/-- A well-typed rule parses, and the parsed rule agrees with the map field by field. -/
theorem parseRule_ok (v : Value) (h : wellTypedRule v = true) :
    ∃ m r, v = Value.map m ∧ parseRule v = some r ∧ RuleAgrees m r := by
  cases v with
  | map m =>
    simp only [wellTypedRule, Bool.and_eq_true] at h
    obtain ⟨⟨⟨⟨⟨⟨⟨⟨h1, h2⟩, h3⟩, h4⟩, h5⟩, h6⟩, h7⟩, h8⟩, h9⟩ := h
    obtain ⟨s1, e1⟩ := asString_of_isSome h1
    obtain ⟨cs, e2, hcs⟩ := isStringList_elim h2
    obtain ⟨names, rfl, hpc⟩ := parseCollections_ok cs hcs
    obtain ⟨bs, e3, hbs⟩ := isConditionList_elim h3
    obtain ⟨conds, hconds⟩ := parseConditions_ok bs hbs { Checks := Slice.nil }
    obtain ⟨b4, e4⟩ := asBool_of_isSome h4
    obtain ⟨s5, e5⟩ := asString_of_isSome h5
    obtain ⟨s6, e6⟩ := asString_of_isSome h6
    obtain ⟨s7, e7⟩ := asString_of_isSome h7
    obtain ⟨b8, e8⟩ := asBool_of_isSome h8
    obtain ⟨b9, e9⟩ := asBool_of_isSome h9
    refine ⟨m, ⟨s1, Slice.mk (names.map fun n => { Name := n }), conds, b4, s5, s6, s7, b8, b9⟩,
      rfl, ?_, ?_⟩
    · simp only [parseRule, Value.asMap, Option.bind_eq_bind, Option.some_bind, e1, e2, e3, e4,
        e5, e6, e7, e8, e9, Value.asString, Value.asBool, Value.asList, hpc, hconds,
        Option.pure_def]
    · exact ⟨e1, ⟨names, e2, rfl⟩, ⟨bs, e3, hbs, hconds⟩, e4, e5, e6, e7, e8, e9⟩
  | _ => simp [wellTypedRule] at h

/-- A list of well-typed rules parses, one parsed rule per entry, in order. -/
theorem parseRules_ok (rs : List Value) (h : rs.all wellTypedRule = true) :
    ∃ prs, parseRules rs = some prs ∧ List.Forall₂ RuleParsed rs prs := by
  induction rs with
  | nil => exact ⟨[], rfl, List.Forall₂.nil⟩
  | cons v rest ih =>
    simp only [List.all_cons, Bool.and_eq_true] at h
    obtain ⟨m, r, hv, hp, hagree⟩ := parseRule_ok v h.1
    obtain ⟨prs, hps, hrel⟩ := ih h.2
    refine ⟨r :: prs, ?_, List.Forall₂.cons ⟨m, hv, hp, hagree⟩ hrel⟩
    simp [parseRules, hp, hps]

/-- The parser on a well-typed configuration whose `rule` attribute is the list `rs`. -/
theorem parse_list_ok (env : Env) (d : ResourceData) (rs : List Value)
    (hd : d.attrs "rule" = Value.list rs) (h : rs.all wellTypedRule = true) :
    ∃ prs, parseComplianceContainerPolicy env d =
        some (some { Type_ := env.policyTypeComplianceContainer, Rules := Slice.mk prs }, none) ∧
      List.Forall₂ RuleParsed rs prs := by
  obtain ⟨prs, hps, hrel⟩ := parseRules_ok rs h
  cases rs with
  | nil =>
    cases hrel
    exact ⟨[], by simp [parseComplianceContainerPolicy, ResourceData.GetOk, hd, Value.isZeroList],
      List.Forall₂.nil⟩
  | cons v rest =>
    refine ⟨prs, ?_, hrel⟩
    simp [parseComplianceContainerPolicy, ResourceData.GetOk, hd, Value.isZeroList,
      Value.asList, hps]

/-- The parser on a configuration whose `rule` attribute is unset. -/
theorem parse_unset (env : Env) (d : ResourceData) (hd : d.attrs "rule" = Value.null) :
    parseComplianceContainerPolicy env d =
      some (some { Type_ := env.policyTypeComplianceContainer, Rules := Slice.mk [] }, none) := by
  simp [parseComplianceContainerPolicy, ResourceData.GetOk, hd, Value.isZeroList]

/-- The parser never panics on a well-typed configuration. -/
theorem parse_ok (env : Env) (d : ResourceData) (h : wellTypedConfig d = true) :
    ∃ prs, parseComplianceContainerPolicy env d =
      some (some { Type_ := env.policyTypeComplianceContainer, Rules := Slice.mk prs }, none) := by
  unfold wellTypedConfig at h
  split at h
  · rename_i hd
    exact ⟨[], parse_unset env d hd⟩
  · rename_i rs hd
    obtain ⟨prs, hp, _⟩ := parse_list_ok env d rs hd h
    exact ⟨prs, hp⟩
  · simp at h

/-! ## Fields of a flattened rule -/

theorem flattenRule_block_message (env : Env) (r : ComplianceRule) :
    (flattenRule env r).field "block_message" = Value.str r.BlockMessage := by
  simp [flattenRule, Value.field, GoMap.set]

theorem flattenRule_collections (env : Env) (r : ComplianceRule) :
    (flattenRule env r).field "collections" = env.flattenCollections r.Collections := by
  simp [flattenRule, Value.field, GoMap.set]

theorem flattenRule_conditions (env : Env) (r : ComplianceRule) :
    (flattenRule env r).field "conditions" = env.flattenComplianceConditions r.Conditions := by
  simp [flattenRule, Value.field, GoMap.set]

theorem flattenRule_disabled (env : Env) (r : ComplianceRule) :
    (flattenRule env r).field "disabled" = Value.bool r.Disabled := by
  simp [flattenRule, Value.field, GoMap.set]

theorem flattenRule_effect (env : Env) (r : ComplianceRule) :
    (flattenRule env r).field "effect" = Value.str r.Effect := by
  simp [flattenRule, Value.field, GoMap.set]

theorem flattenRule_name (env : Env) (r : ComplianceRule) :
    (flattenRule env r).field "name" = Value.str r.Name := by
  simp [flattenRule, Value.field, GoMap.set]

theorem flattenRule_notes (env : Env) (r : ComplianceRule) :
    (flattenRule env r).field "notes" = Value.str r.Notes := by
  simp [flattenRule, Value.field, GoMap.set]

theorem flattenRule_show_passed_checks (env : Env) (r : ComplianceRule) :
    (flattenRule env r).field "show_passed_checks" = Value.bool r.ShowPassedChecks := by
  simp [flattenRule, Value.field, GoMap.set]

theorem flattenRule_verbose (env : Env) (r : ComplianceRule) :
    (flattenRule env r).field "verbose" = Value.bool r.Verbose := by
  simp [flattenRule, Value.field, GoMap.set]

/-! ## The parser: totality, field exactness, the conditions collapse -/

/-- C2: on every well-typed configuration `parseComplianceContainerPolicy` returns, without
panicking, a nil error and a non-nil policy whose `Type` is the policy-type constant and whose
`Rules` is an allocated slice with one entry per input rule, the i-th entry carrying the seven
scalar fields of the i-th input rule and, as `Collections`, the input collection names mapped in
order to name-only collections; with the `rule` attribute unset or empty, `Rules` is the
allocated empty slice.  The spec's example rule `r1` parses to `Effect = "block"`,
`Collections = [{Name: "prod"}]`, `Conditions.Checks = [{Id: 14, Block: true}]`. -/
theorem parseComplianceContainerPolicy_total_field_exact (env : Env) (d : ResourceData)
    (h : wellTypedConfig d = true) :
    (∃ prs, parseComplianceContainerPolicy env d =
        some (some { Type_ := env.policyTypeComplianceContainer, Rules := Slice.mk prs }, none) ∧
      (d.attrs "rule" = Value.null ∨ d.attrs "rule" = Value.list [] → prs = []) ∧
      (∀ rs : List Value, d.attrs "rule" = Value.list rs →
        prs.length = rs.length ∧
        ∀ (i : Nat) (v : Value), rs[i]? = some v → ∃ r : ComplianceRule, prs[i]? = some r ∧
          v.field "block_message" = Value.str r.BlockMessage ∧
          v.field "disabled" = Value.bool r.Disabled ∧
          v.field "effect" = Value.str r.Effect ∧
          v.field "name" = Value.str r.Name ∧
          v.field "notes" = Value.str r.Notes ∧
          v.field "show_passed_checks" = Value.bool r.ShowPassedChecks ∧
          v.field "verbose" = Value.bool r.Verbose ∧
          ∃ names : List String, v.field "collections" = Value.list (names.map Value.str) ∧
            r.Collections = Slice.mk (names.map fun n => { Name := n }))) ∧
    parseComplianceContainerPolicy env (dataWith "" [sampleRule]) =
      some (some { Type_ := env.policyTypeComplianceContainer,
                   Rules := Slice.mk [sampleParsedRule] }, none) := by
  refine ⟨?_, rfl⟩
  unfold wellTypedConfig at h
  split at h
  · rename_i hd
    refine ⟨[], parse_unset env d hd, fun _ => rfl, ?_⟩
    intro rs hrs
    rw [hd] at hrs
    cases hrs
  · rename_i rs hd
    obtain ⟨prs, hp, hrel⟩ := parse_list_ok env d rs hd h
    refine ⟨prs, hp, ?_, ?_⟩
    · intro h0
      rcases h0 with h0 | h0
      · rw [hd] at h0
        cases h0
      · rw [hd] at h0
        cases h0
        cases hrel
        rfl
    · intro rs2 hrs2
      rw [hd] at hrs2
      cases hrs2
      refine ⟨hrel.length_eq.symm, ?_⟩
      intro i v hv
      obtain ⟨r, hr, m, rfl, _, e1, ⟨names, e2, e2b⟩, _, e4, e5, e6, e7, e8, e9⟩ :=
        forall₂_getElem? hrel i v hv
      exact ⟨r, hr, e1, e4, e5, e6, e7, e8, e9, names, e2, e2b⟩
  · simp at h

/-- C2, at the configuration holding the spec's example rule. -/
theorem parseComplianceContainerPolicy_total_field_exact_witness :
    wellTypedConfig (dataWith "" [sampleRule]) = true ∧
    ((∃ prs, parseComplianceContainerPolicy (specEnv samplePolicyType)
          (dataWith "" [sampleRule]) =
        some (some { Type_ := (specEnv samplePolicyType).policyTypeComplianceContainer,
                     Rules := Slice.mk prs }, none) ∧
      ((dataWith "" [sampleRule]).attrs "rule" = Value.null ∨
        (dataWith "" [sampleRule]).attrs "rule" = Value.list [] → prs = []) ∧
      (∀ rs : List Value, (dataWith "" [sampleRule]).attrs "rule" = Value.list rs →
        prs.length = rs.length ∧
        ∀ (i : Nat) (v : Value), rs[i]? = some v → ∃ r : ComplianceRule, prs[i]? = some r ∧
          v.field "block_message" = Value.str r.BlockMessage ∧
          v.field "disabled" = Value.bool r.Disabled ∧
          v.field "effect" = Value.str r.Effect ∧
          v.field "name" = Value.str r.Name ∧
          v.field "notes" = Value.str r.Notes ∧
          v.field "show_passed_checks" = Value.bool r.ShowPassedChecks ∧
          v.field "verbose" = Value.bool r.Verbose ∧
          ∃ names : List String, v.field "collections" = Value.list (names.map Value.str) ∧
            r.Collections = Slice.mk (names.map fun n => { Name := n }))) ∧
    parseComplianceContainerPolicy (specEnv samplePolicyType) (dataWith "" [sampleRule]) =
      some (some { Type_ := (specEnv samplePolicyType).policyTypeComplianceContainer,
                   Rules := Slice.mk [sampleParsedRule] }, none)) :=
  ⟨by decide, parseComplianceContainerPolicy_total_field_exact (specEnv samplePolicyType)
    (dataWith "" [sampleRule]) (by decide)⟩

/-- C3: in the policy parsed from a well-typed rule list, a rule with zero `conditions` blocks
has the nil, hence empty, `Conditions.Checks`, and a rule with exactly one block holding `N`
`compliance_check` entries has an allocated `Conditions.Checks` of exactly `N` entries, the j-th
with the `id` and the `block` flag of the j-th input check. -/
theorem parseComplianceContainerPolicy_conditions_collapse (env : Env) (d : ResourceData)
    (rs : List Value) (hd : d.attrs "rule" = Value.list rs)
    (h : rs.all wellTypedRule = true) :
    ∃ prs, parseComplianceContainerPolicy env d =
        some (some { Type_ := env.policyTypeComplianceContainer, Rules := Slice.mk prs }, none) ∧
      ∀ (i : Nat) (v : Value), rs[i]? = some v → ∃ r : ComplianceRule, prs[i]? = some r ∧
        (v.field "conditions" = Value.list [] →
          r.Conditions.Checks = Slice.nil ∧ r.Conditions.Checks.toList = []) ∧
        (∀ (b : Value) (cs : List Value), v.field "conditions" = Value.list [b] →
          b.field "compliance_check" = Value.list cs →
          r.Conditions.Checks.toList.length = cs.length ∧
          ∀ (j : Nat) (c : Value), cs[j]? = some c →
            ∃ k : ComplianceCheck, r.Conditions.Checks.toList[j]? = some k ∧
            c.field "id" = Value.int k.Id ∧ c.field "block" = Value.bool k.Block) := by
  obtain ⟨prs, hp, hrel⟩ := parse_list_ok env d rs hd h
  refine ⟨prs, hp, ?_⟩
  intro i v hv
  obtain ⟨r, hr, m, rfl, _, _, _, ⟨bs, e3, hbs, hconds⟩, _⟩ := forall₂_getElem? hrel i _ hv
  refine ⟨r, hr, ?_, ?_⟩
  · intro h0
    simp only [Value.field] at h0
    rw [e3] at h0
    cases h0
    simp only [parseConditions, Option.some.injEq] at hconds
    rw [← hconds]
    exact ⟨rfl, rfl⟩
  · intro b cs h1 hcs
    simp only [Value.field] at h1
    rw [e3] at h1
    cases h1
    simp only [List.all_cons, List.all_nil, Bool.and_true] at hbs
    obtain ⟨ks, hb⟩ := wellTypedCondition_elim hbs
    rw [parseConditions_cons hb] at hconds
    simp only [parseConditions, Option.some.injEq] at hconds
    obtain ⟨mb, cs2, rfl, hcs2, _, hagree⟩ := hb
    simp only [Value.field] at hcs
    rw [hcs2] at hcs
    cases hcs
    rw [← hconds]
    refine ⟨hagree.length_eq.symm, ?_⟩
    intro j c hc
    obtain ⟨k, hk, mc, rfl, hblock, hid⟩ := forall₂_getElem? hagree j c hc
    exact ⟨k, hk, hid, hblock⟩

/-- C3, at a list holding the spec's example rule and a rule without conditions. -/
theorem parseComplianceContainerPolicy_conditions_collapse_witness :
    ∃ prs, parseComplianceContainerPolicy (specEnv samplePolicyType)
        (dataWith "" [sampleRule, bareRule]) =
        some (some { Type_ := (specEnv samplePolicyType).policyTypeComplianceContainer,
                     Rules := Slice.mk prs }, none) ∧
      ∀ (i : Nat) (v : Value), [sampleRule, bareRule][i]? = some v →
        ∃ r : ComplianceRule, prs[i]? = some r ∧
        (v.field "conditions" = Value.list [] →
          r.Conditions.Checks = Slice.nil ∧ r.Conditions.Checks.toList = []) ∧
        (∀ (b : Value) (cs : List Value), v.field "conditions" = Value.list [b] →
          b.field "compliance_check" = Value.list cs →
          r.Conditions.Checks.toList.length = cs.length ∧
          ∀ (j : Nat) (c : Value), cs[j]? = some c →
            ∃ k : ComplianceCheck, r.Conditions.Checks.toList[j]? = some k ∧
            c.field "id" = Value.int k.Id ∧ c.field "block" = Value.bool k.Block) :=
  parseComplianceContainerPolicy_conditions_collapse (specEnv samplePolicyType)
    (dataWith "" [sampleRule, bareRule]) [sampleRule, bareRule] rfl (by decide)

/-! ## Order preservation -/

/-- C4: for every well-typed rule list of length `n`, whatever the two flatten helpers do,
flattening the parsed rules gives a list of length `n` whose i-th entry has the `name`, and the
other six scalar fields, of the i-th input rule. -/
theorem flatten_parse_order_preserved (env : Env) (d : ResourceData) (rs : List Value)
    (hd : d.attrs "rule" = Value.list rs) (h : rs.all wellTypedRule = true) :
    ∃ p, parseComplianceContainerPolicy env d = some (some p, none) ∧
      (flattenPolicyComplianceContainerRules env p.Rules).length = rs.length ∧
      ∀ (i : Nat) (v : Value), rs[i]? = some v →
        ∃ out : Value, (flattenPolicyComplianceContainerRules env p.Rules)[i]? = some out ∧
          out.field "name" = v.field "name" ∧
          ∀ k ∈ scalarKeys, out.field k = v.field k := by
  obtain ⟨prs, hp, hrel⟩ := parse_list_ok env d rs hd h
  refine ⟨_, hp, ?_, ?_⟩
  · simp [flattenPolicyComplianceContainerRules, Slice.toList, hrel.length_eq]
  · intro i v hv
    obtain ⟨r, hr, m, rfl, _, e1, _, _, e4, e5, e6, e7, e8, e9⟩ := forall₂_getElem? hrel i v hv
    refine ⟨flattenRule env r, ?_, ?_, ?_⟩
    · simp [flattenPolicyComplianceContainerRules, Slice.toList, hr]
    · rw [flattenRule_name]
      exact e6.symm
    · intro k hk
      simp only [scalarKeys, List.mem_cons, List.mem_singleton, List.not_mem_nil, or_false] at hk
      rcases hk with rfl | rfl | rfl | rfl | rfl | rfl | rfl
      · rw [flattenRule_block_message]; exact e1.symm
      · rw [flattenRule_disabled]; exact e4.symm
      · rw [flattenRule_effect]; exact e5.symm
      · rw [flattenRule_name]; exact e6.symm
      · rw [flattenRule_notes]; exact e7.symm
      · rw [flattenRule_show_passed_checks]; exact e8.symm
      · rw [flattenRule_verbose]; exact e9.symm

/-- C4, at a list of two rules. -/
theorem flatten_parse_order_preserved_witness :
    ∃ p, parseComplianceContainerPolicy (specEnv samplePolicyType)
        (dataWith "" [sampleRule, bareRule]) = some (some p, none) ∧
      (flattenPolicyComplianceContainerRules (specEnv samplePolicyType) p.Rules).length =
        [sampleRule, bareRule].length ∧
      ∀ (i : Nat) (v : Value), [sampleRule, bareRule][i]? = some v →
        ∃ out : Value, (flattenPolicyComplianceContainerRules (specEnv samplePolicyType) p.Rules)[i]? =
            some out ∧
          out.field "name" = v.field "name" ∧
          ∀ k ∈ scalarKeys, out.field k = v.field k :=
  flatten_parse_order_preserved (specEnv samplePolicyType)
    (dataWith "" [sampleRule, bareRule]) [sampleRule, bareRule] rfl (by decide)

/-! ## Round trip through the helpers modelled from the spec -/

/-- Two maps that agree on `keys` and have no entry outside `keys` are equal. -/
theorem GoMap.ext_keys (m₁ m₂ : GoMap) (keys : List String)
    (hin : ∀ k ∈ keys, m₁ k = m₂ k) (h₁ : OnlyKeys m₁ keys) (h₂ : OnlyKeys m₂ keys) :
    m₁ = m₂ := by
  funext k
  by_cases hk : k ∈ keys
  · exact hin k hk
  · rw [h₁ k hk, h₂ k hk]

/-- A well-formed check is what flattening its parsed form gives. -/
theorem flattenComplianceCheck_of_agrees {c : Value} {k : ComplianceCheck}
    (hck : CheckAgrees c k) (hwf : WellFormedCheck c) : flattenComplianceCheck k = c := by
  obtain ⟨m, rfl, hb, hi⟩ := hck
  have honly := hwf.2 m rfl
  unfold flattenComplianceCheck
  congr 1
  apply GoMap.ext_keys _ _ ["block", "id"]
  · intro key hkey
    simp only [List.mem_cons, List.mem_singleton, List.not_mem_nil, or_false] at hkey
    rcases hkey with rfl | rfl
    · simp [GoMap.set, hb]
    · simp [GoMap.set, hi]
  · intro key hkey
    simp only [List.mem_cons, List.mem_singleton, List.not_mem_nil, or_false, not_or] at hkey
    simp [GoMap.set, GoMap.empty, hkey.1, hkey.2]
  · exact honly

/-- Well-formed checks are what flattening their parsed forms gives, in order. -/
theorem flattenComplianceChecks_of_agrees {cs : List Value} {ks : List ComplianceCheck}
    (hrel : List.Forall₂ CheckAgrees cs ks) (hwf : ∀ c ∈ cs, WellFormedCheck c) :
    ks.map flattenComplianceCheck = cs := by
  induction hrel with
  | nil => rfl
  | cons hab _ ih =>
    simp only [List.map_cons, List.cons.injEq]
    exact ⟨flattenComplianceCheck_of_agrees hab (hwf _ (List.mem_cons_self _ _)),
      ih fun c hc => hwf c (List.mem_cons_of_mem _ hc)⟩

/-- Flattening the conditions parsed from one well-formed block gives that block back. -/
theorem flattenComplianceConditions_one_block {b : Value} {conds : ComplianceConditions}
    (hwt : wellTypedCondition b = true) (hwf : WellFormedCondition b)
    (hp : parseConditions { Checks := Slice.nil } [b] = some conds) :
    flattenComplianceConditions conds = Value.list [b] := by
  obtain ⟨ks, hb⟩ := wellTypedCondition_elim hwt
  rw [parseConditions_cons hb] at hp
  simp only [parseConditions, Option.some.injEq] at hp
  obtain ⟨m, cs, rfl, hcs, _, hagree⟩ := hb
  obtain ⟨honly, hchecks⟩ := hwf.2 m rfl
  rw [← hp]
  simp only [flattenComplianceConditions]
  congr 2
  congr 1
  apply GoMap.ext_keys _ _ ["compliance_check"]
  · intro key hkey
    simp only [List.mem_singleton] at hkey
    subst hkey
    simp [GoMap.set, hcs, flattenComplianceChecks_of_agrees hagree (hchecks cs hcs)]
  · intro key hkey
    simp only [List.mem_singleton] at hkey
    simp [GoMap.set, GoMap.empty, hkey]
  · exact honly

/-- Flattening the conditions parsed from no block gives no block. -/
theorem flattenComplianceConditions_no_block {conds : ComplianceConditions}
    (hp : parseConditions { Checks := Slice.nil } [] = some conds) :
    flattenComplianceConditions conds = Value.list [] := by
  simp only [parseConditions, Option.some.injEq] at hp
  rw [← hp]
  rfl

/-- Flattening the conditions parsed from a well-formed list of at most one block gives that
list back. -/
theorem flattenComplianceConditions_of_parse {bs : List Value} {conds : ComplianceConditions}
    (hlen : bs.length ≤ 1) (hwt : bs.all wellTypedCondition = true)
    (hwf : ∀ b ∈ bs, WellFormedCondition b)
    (hp : parseConditions { Checks := Slice.nil } bs = some conds) :
    flattenComplianceConditions conds = Value.list bs := by
  match bs, hlen, hwt, hwf, hp with
  | [], _, _, _, hp => exact flattenComplianceConditions_no_block hp
  | [b], _, hwt, hwf, hp =>
    simp only [List.all_cons, List.all_nil, Bool.and_true] at hwt
    exact flattenComplianceConditions_one_block hwt (hwf b (List.mem_singleton_self b)) hp
  | _ :: _ :: _, hlen, _, _, _ => simp at hlen

/-- The flattened rule has no key outside the nine rule keys. -/
theorem flattenRule_onlyKeys (env : Env) (r : ComplianceRule) (m : GoMap)
    (h : flattenRule env r = Value.map m) : OnlyKeys m ruleKeys := by
  simp only [flattenRule, Value.map.injEq] at h
  subst h
  intro key hkey
  simp only [ruleKeys, List.mem_cons, List.mem_singleton, List.not_mem_nil, or_false,
    not_or] at hkey
  obtain ⟨h1, h2, h3, h4, h5, h6, h7, h8, h9⟩ := hkey
  simp [GoMap.set, GoMap.empty, h1, h2, h3, h4, h5, h6, h7, h8, h9]

/-- The flattened rule is a map. -/
theorem flattenRule_isMap (env : Env) (r : ComplianceRule) :
    ∃ m, flattenRule env r = Value.map m := ⟨_, rfl⟩

/-- Flattening a parsed well-formed rule gives the rule map back. -/
theorem flattenRule_of_agrees (policyType : String) {m : GoMap} {r : ComplianceRule}
    (hagree : RuleAgrees m r) (hwf : WellFormedRule (Value.map m)) :
    flattenRule (specEnv policyType) r = Value.map m := by
  obtain ⟨e1, ⟨names, e2, e2b⟩, ⟨bs, e3, hbs, hconds⟩, e4, e5, e6, e7, e8, e9⟩ := hagree
  obtain ⟨honly, hblocks⟩ := hwf.2 m rfl
  obtain ⟨fm, hfm⟩ := flattenRule_isMap (specEnv policyType) r
  have honlyf := flattenRule_onlyKeys _ _ _ hfm
  have f1 := flattenRule_block_message (specEnv policyType) r
  have f2 := flattenRule_collections (specEnv policyType) r
  have f3 := flattenRule_conditions (specEnv policyType) r
  have f4 := flattenRule_disabled (specEnv policyType) r
  have f5 := flattenRule_effect (specEnv policyType) r
  have f6 := flattenRule_name (specEnv policyType) r
  have f7 := flattenRule_notes (specEnv policyType) r
  have f8 := flattenRule_show_passed_checks (specEnv policyType) r
  have f9 := flattenRule_verbose (specEnv policyType) r
  rw [hfm] at f1 f2 f3 f4 f5 f6 f7 f8 f9
  simp only [Value.field] at f1 f2 f3 f4 f5 f6 f7 f8 f9
  have hcoll : fm "collections" = m "collections" := by
    rw [f2, e2, e2b]
    simp [specEnv, flattenCollections, Slice.toList, List.map_map, Function.comp_def]
  have hcond : fm "conditions" = m "conditions" := by
    rw [f3, e3]
    exact flattenComplianceConditions_of_parse (hblocks _ e3).1 hbs (hblocks _ e3).2 hconds
  rw [hfm]
  congr 1
  apply GoMap.ext_keys _ _ ruleKeys _ honlyf honly
  intro key hkey
  simp only [ruleKeys, List.mem_cons, List.mem_singleton, List.not_mem_nil, or_false] at hkey
  rcases hkey with rfl | rfl | rfl | rfl | rfl | rfl | rfl | rfl | rfl
  · rw [f1, e1]
  · exact hcoll
  · exact hcond
  · rw [f4, e4]
  · rw [f5, e5]
  · rw [f6, e6]
  · rw [f7, e7]
  · rw [f8, e8]
  · rw [f9, e9]

/-- The sample check is well formed. -/
theorem sampleCheck_wellFormed : WellFormedCheck sampleCheck := by
  refine ⟨by decide, ?_⟩
  intro m hm
  simp only [sampleCheck, Value.map.injEq] at hm
  subst hm
  intro key hkey
  simp only [List.mem_cons, List.mem_singleton, List.not_mem_nil, or_false, not_or] at hkey
  simp [GoMap.set, GoMap.empty, hkey.1, hkey.2]

/-- The sample block is well formed. -/
theorem sampleCondition_wellFormed : WellFormedCondition sampleCondition := by
  refine ⟨by decide, ?_⟩
  intro m hm
  simp only [sampleCondition, Value.map.injEq] at hm
  subst hm
  refine ⟨?_, ?_⟩
  · intro key hkey
    simp only [List.mem_singleton] at hkey
    simp [GoMap.set, GoMap.empty, hkey]
  · intro cs hcs c hc
    simp only [GoMap.set, if_true, Value.list.injEq] at hcs
    subst hcs
    simp only [List.mem_singleton] at hc
    subst hc
    exact sampleCheck_wellFormed

/-- A sample rule map has no key outside the nine rule keys. -/
theorem sampleRuleMap_onlyKeys (name effect : String) (collections conditions : List Value) :
    OnlyKeys (sampleRuleMap name effect collections conditions) ruleKeys := by
  intro key hkey
  simp only [ruleKeys, List.mem_cons, List.mem_singleton, List.not_mem_nil, or_false,
    not_or] at hkey
  obtain ⟨h1, h2, h3, h4, h5, h6, h7, h8, h9⟩ := hkey
  simp [sampleRuleMap, GoMap.set, GoMap.empty, h1, h2, h3, h4, h5, h6, h7, h8, h9]

/-- The `conditions` field of a sample rule map. -/
theorem sampleRuleMap_conditions (name effect : String) (collections conditions : List Value) :
    sampleRuleMap name effect collections conditions "conditions" = Value.list conditions := by
  simp [sampleRuleMap, GoMap.set]

/-- The spec's example rule is well formed. -/
theorem sampleRule_wellFormed : WellFormedRule sampleRule := by
  refine ⟨by decide, ?_⟩
  intro m hm
  simp only [sampleRule, Value.map.injEq] at hm
  subst hm
  refine ⟨sampleRuleMap_onlyKeys _ _ _ _, ?_⟩
  intro bs hbs
  rw [sampleRuleMap_conditions] at hbs
  simp only [Value.list.injEq] at hbs
  subst hbs
  refine ⟨by simp, ?_⟩
  intro b hb
  simp only [List.mem_singleton] at hb
  subst hb
  exact sampleCondition_wellFormed

/-- The rule without conditions is well formed. -/
theorem bareRule_wellFormed : WellFormedRule bareRule := by
  refine ⟨by decide, ?_⟩
  intro m hm
  simp only [bareRule, Value.map.injEq] at hm
  subst hm
  refine ⟨sampleRuleMap_onlyKeys _ _ _ _, ?_⟩
  intro bs hbs
  rw [sampleRuleMap_conditions] at hbs
  simp only [Value.list.injEq] at hbs
  subst hbs
  exact ⟨by simp, by simp⟩

/-- C1: for every well-formed declarative rule list, parsing succeeds and flattening the parsed
rules, with the two helpers taken as the name-only list and the inverse of the conditions
collapse, gives the list back exactly: the same length, the same order and, rule by rule, every
one of the nine fields, rules with zero `conditions` blocks and rules with an empty
`collections` list included. -/
theorem flatten_parse_roundtrip (policyType : String) (d : ResourceData) (rs : List Value)
    (hd : d.attrs "rule" = Value.list rs) (hwf : ∀ r ∈ rs, WellFormedRule r) :
    ∃ p, parseComplianceContainerPolicy (specEnv policyType) d = some (some p, none) ∧
      flattenPolicyComplianceContainerRules (specEnv policyType) p.Rules = rs ∧
      (flattenPolicyComplianceContainerRules (specEnv policyType) p.Rules).length = rs.length ∧
      ∀ (i : Nat) (v : Value), rs[i]? = some v →
        (flattenPolicyComplianceContainerRules (specEnv policyType) p.Rules)[i]? = some v ∧
        ∀ k ∈ ruleKeys,
          ∃ out : Value,
            (flattenPolicyComplianceContainerRules (specEnv policyType) p.Rules)[i]? = some out ∧
            out.field k = v.field k := by
  have hwt : rs.all wellTypedRule = true := by
    rw [List.all_eq_true]
    exact fun r hr => (hwf r hr).1
  obtain ⟨prs, hp, hrel⟩ := parse_list_ok (specEnv policyType) d rs hd hwt
  have hall : flattenPolicyComplianceContainerRules (specEnv policyType) (Slice.mk prs) = rs := by
    simp only [flattenPolicyComplianceContainerRules, Slice.toList]
    clear hp hd hwt
    induction hrel with
    | nil => rfl
    | cons hab _ ih =>
      obtain ⟨m, rfl, _, hagree⟩ := hab
      simp only [List.map_cons, List.cons.injEq]
      exact ⟨flattenRule_of_agrees policyType hagree (hwf _ (List.mem_cons_self _ _)),
        ih (fun r hr => hwf r (List.mem_cons_of_mem _ hr))⟩
  refine ⟨_, hp, hall, by rw [hall], ?_⟩
  intro i v hv
  rw [hall]
  exact ⟨hv, fun k _ => ⟨v, hv, rfl⟩⟩

/-- C1, at the list holding the spec's example rule and a rule with zero `conditions` blocks
and an empty `collections` list. -/
theorem flatten_parse_roundtrip_witness :
    (∀ r ∈ [sampleRule, bareRule], WellFormedRule r) ∧
    bareRule.field "conditions" = Value.list [] ∧
    bareRule.field "collections" = Value.list [] ∧
    ∃ p, parseComplianceContainerPolicy (specEnv samplePolicyType)
        (dataWith "" [sampleRule, bareRule]) = some (some p, none) ∧
      flattenPolicyComplianceContainerRules (specEnv samplePolicyType) p.Rules =
        [sampleRule, bareRule] ∧
      (flattenPolicyComplianceContainerRules (specEnv samplePolicyType) p.Rules).length =
        [sampleRule, bareRule].length ∧
      ∀ (i : Nat) (v : Value), [sampleRule, bareRule][i]? = some v →
        (flattenPolicyComplianceContainerRules (specEnv samplePolicyType) p.Rules)[i]? =
          some v ∧
        ∀ k ∈ ruleKeys,
          ∃ out : Value,
            (flattenPolicyComplianceContainerRules (specEnv samplePolicyType) p.Rules)[i]? =
              some out ∧
            out.field k = v.field k :=
  have hwf : ∀ r ∈ [sampleRule, bareRule], WellFormedRule r := by
    intro r hr
    simp only [List.mem_cons, List.mem_singleton, List.not_mem_nil, or_false] at hr
    rcases hr with rfl | rfl
    · exact sampleRule_wellFormed
    · exact bareRule_wellFormed
  ⟨hwf, rfl, rfl, flatten_parse_roundtrip samplePolicyType (dataWith "" [sampleRule, bareRule])
    [sampleRule, bareRule] rfl hwf⟩

/-! ## Facts about the lifecycle entry points -/

/-- The parser has no error path: whenever it returns, the error is nil and the policy pointer
is not. -/
theorem parse_returns (env : Env) (d : ResourceData) (x : Option CompliancePolicy)
    (e : Option String) (h : parseComplianceContainerPolicy env d = some (x, e)) :
    e = none ∧ ∃ p, x = some p := by
  unfold parseComplianceContainerPolicy at h
  split at h
  · rename_i rules _
    cases h1 : rules.asList with
    | none =>
      simp [h1] at h
    | some rulesList =>
      cases h2 : parseRules rulesList with
      | none =>
        simp [h1, h2] at h
      | some prs =>
        simp only [h1, h2, Option.bind_eq_bind, Option.some_bind, Option.pure_def,
          Option.some.injEq, Prod.mk.injEq] at h
        obtain ⟨rfl, rfl⟩ := h
        exact ⟨rfl, _, rfl⟩
  · simp only [Option.some.injEq, Prod.mk.injEq] at h
    obtain ⟨rfl, rfl⟩ := h
    exact ⟨rfl, _, rfl⟩

/-- Create when the parser returned `p` and the remote update failed. -/
theorem create_update_failed {σ : Type} (env : Env) (fw : Framework) (client : Client σ)
    (d : ResourceData) (w : World σ) (p : CompliancePolicy) (E : String)
    (hp : parseComplianceContainerPolicy env d = some (some p, none))
    (hu : (client.UpdateComplianceContainer w.remote p).1 = some E) :
    createPolicyComplianceContainer env fw client d w =
      some { err := some ("error creating " ++ env.policyTypeComplianceContainer ++
                      " policy: " ++ E),
             d := d, w := (w.update client p).2 } := by
  simp only [createPolicyComplianceContainer, hp, World.update, hu]

/-- Create when the parser returned `p` and the remote update succeeded. -/
theorem create_update_succeeded {σ : Type} (env : Env) (fw : Framework) (client : Client σ)
    (d : ResourceData) (w : World σ) (p : CompliancePolicy)
    (hp : parseComplianceContainerPolicy env d = some (some p, none))
    (hu : (client.UpdateComplianceContainer w.remote p).1 = none) :
    createPolicyComplianceContainer env fw client d w =
      some (readPolicyComplianceContainer env fw client
        (d.SetId env.policyTypeComplianceContainer) (w.update client p).2) := by
  simp only [createPolicyComplianceContainer, hp, World.update, hu]

/-- Update when the parser returned `p` and the remote update failed. -/
theorem update_update_failed {σ : Type} (env : Env) (fw : Framework) (client : Client σ)
    (d : ResourceData) (w : World σ) (p : CompliancePolicy) (E : String)
    (hp : parseComplianceContainerPolicy env d = some (some p, none))
    (hu : (client.UpdateComplianceContainer w.remote p).1 = some E) :
    updatePolicyComplianceContainer env fw client d w =
      some { err := some ("error updating " ++ env.policyTypeComplianceContainer ++
                      " policy: " ++ E),
             d := d, w := (w.update client p).2 } := by
  simp only [updatePolicyComplianceContainer, hp, World.update, hu]

/-- Update when the parser returned `p` and the remote update succeeded. -/
theorem update_update_succeeded {σ : Type} (env : Env) (fw : Framework) (client : Client σ)
    (d : ResourceData) (w : World σ) (p : CompliancePolicy)
    (hp : parseComplianceContainerPolicy env d = some (some p, none))
    (hu : (client.UpdateComplianceContainer w.remote p).1 = none) :
    updatePolicyComplianceContainer env fw client d w =
      some (readPolicyComplianceContainer env fw client d (w.update client p).2) := by
  simp only [updatePolicyComplianceContainer, hp, World.update, hu]

/-- Read when the remote get failed. -/
theorem read_get_failed {σ : Type} (env : Env) (fw : Framework) (client : Client σ)
    (d : ResourceData) (w : World σ) (E : String)
    (hg : (client.GetComplianceContainer w.remote).2.1 = some E) :
    readPolicyComplianceContainer env fw client d w =
      { err := some ("error reading " ++ env.policyTypeComplianceContainer ++ " policy: " ++ E),
        d := d, w := (w.get client).2.2 } := by
  simp only [readPolicyComplianceContainer, World.get, hg]

/-- Read when the remote get succeeded and the framework accepted the write. -/
theorem read_accepted {σ : Type} (env : Env) (fw : Framework) (client : Client σ)
    (d : ResourceData) (w : World σ)
    (hg : (client.GetComplianceContainer w.remote).2.1 = none)
    (hs : fw.verdict "rule" (Value.list (flattenPolicyComplianceContainerRules env
      (client.GetComplianceContainer w.remote).1.Rules)) = none) :
    readPolicyComplianceContainer env fw client d w =
      { err := none,
        d := ResourceData.mk d.id (GoMap.set d.attrs "rule"
          (Value.list (flattenPolicyComplianceContainerRules env
            (client.GetComplianceContainer w.remote).1.Rules))),
        w := (w.get client).2.2 } := by
  simp only [readPolicyComplianceContainer, World.get, hg, ResourceData.Set, hs]

/-- Read when the remote get succeeded and the framework rejected the write. -/
theorem read_rejected {σ : Type} (env : Env) (fw : Framework) (client : Client σ)
    (d : ResourceData) (w : World σ) (E : String)
    (hg : (client.GetComplianceContainer w.remote).2.1 = none)
    (hs : fw.verdict "rule" (Value.list (flattenPolicyComplianceContainerRules env
      (client.GetComplianceContainer w.remote).1.Rules)) = some E) :
    readPolicyComplianceContainer env fw client d w =
      { err := some ("error reading " ++ env.policyTypeComplianceContainer ++ " policy: " ++ E),
        d := ResourceData.mk d.id (GoMap.set d.attrs "rule"
          (fw.residue "rule" (d.attrs "rule")
            (Value.list (flattenPolicyComplianceContainerRules env
              (client.GetComplianceContainer w.remote).1.Rules)))),
        w := (w.get client).2.2 } := by
  simp only [readPolicyComplianceContainer, World.get, hg, ResourceData.Set, hs]

/-- The wrapped message contains the policy-type name and the cause. -/
theorem wrapped_contains (op ty E : String) :
    containsText (op ++ ty ++ " policy: " ++ E) ty ∧
      containsText (op ++ ty ++ " policy: " ++ E) E :=
  ⟨⟨op, " policy: " ++ E, by simp [String.append_assoc]⟩,
    ⟨op ++ ty ++ " policy: ", "", by simp [String.append_assoc]⟩⟩

/-- Writing an attribute's own value back changes nothing. -/
theorem GoMap.set_self (m : GoMap) (key : String) : GoMap.set m key (m key) = m := by
  funext k
  simp only [GoMap.set]
  split
  · rename_i h
    rw [h]
  · rfl

/-- A later write to a key hides an earlier one. -/
theorem GoMap.set_set (m : GoMap) (key : String) (v₁ v₂ : Value) :
    GoMap.set (GoMap.set m key v₁) key v₂ = GoMap.set m key v₂ := by
  funext k
  simp only [GoMap.set]
  split <;> rfl

/-- Read leaves the identifier alone. -/
theorem read_id {σ : Type} (env : Env) (fw : Framework) (client : Client σ)
    (d : ResourceData) (w : World σ) :
    (readPolicyComplianceContainer env fw client d w).d.id = d.id := by
  unfold readPolicyComplianceContainer ResourceData.Set
  split
  · rfl
  · split <;> rename_i hs <;> split at hs <;> simp only [Prod.mk.injEq] at hs <;>
      obtain ⟨_, rfl⟩ := hs <;> rfl

/-- Read makes exactly one remote call, a get. -/
theorem read_calls {σ : Type} (env : Env) (fw : Framework) (client : Client σ)
    (d : ResourceData) (w : World σ) :
    (readPolicyComplianceContainer env fw client d w).w.calls = w.calls ++ [Call.get] := by
  unfold readPolicyComplianceContainer
  split
  · rename_i hg
    simp only [World.get, Prod.mk.injEq] at hg
    obtain ⟨_, _, rfl⟩ := hg
    rfl
  · rename_i hg
    simp only [World.get, Prod.mk.injEq] at hg
    obtain ⟨_, _, rfl⟩ := hg
    split <;> rfl

/-- Read leaves every attribute other than `rule` alone. -/
theorem read_other_attrs {σ : Type} (env : Env) (fw : Framework) (client : Client σ)
    (d : ResourceData) (w : World σ) (k : String) (hk : k ≠ "rule") :
    (readPolicyComplianceContainer env fw client d w).d.attrs k = d.attrs k := by
  unfold readPolicyComplianceContainer ResourceData.Set
  split
  · rfl
  · split <;> rename_i hs <;> split at hs <;> simp only [Prod.mk.injEq] at hs <;>
      obtain ⟨_, rfl⟩ := hs <;> simp [GoMap.set, hk]

/-- Supplying the configuration again after a read gives the resource data the read began
with. -/
theorem resupply_read {σ : Type} (env : Env) (fw : Framework) (client : Client σ)
    (d : ResourceData) (w : World σ) :
    resupply d (readPolicyComplianceContainer env fw client d w).d = d := by
  cases d with
  | mk id attrs =>
    simp only [resupply, read_id, ResourceData.mk.injEq, true_and]
    funext k
    by_cases hk : k = "rule"
    · simp [GoMap.set, hk]
    · simp only [GoMap.set, hk, if_false]
      exact read_other_attrs env fw client _ w k hk

/-- Against the store, what a read returns and leaves does not depend on the call log, and the
store keeps its policy. -/
theorem read_store (env : Env) (fw : Framework) (d : ResourceData) (p : CompliancePolicy)
    (calls₁ calls₂ : List Call) :
    (readPolicyComplianceContainer env fw storeClient d ⟨p, calls₁⟩).err =
        (readPolicyComplianceContainer env fw storeClient d ⟨p, calls₂⟩).err ∧
      (readPolicyComplianceContainer env fw storeClient d ⟨p, calls₁⟩).d =
        (readPolicyComplianceContainer env fw storeClient d ⟨p, calls₂⟩).d ∧
      (readPolicyComplianceContainer env fw storeClient d ⟨p, calls₁⟩).w.remote = p := by
  simp only [readPolicyComplianceContainer, World.get, storeClient]
  split <;> exact ⟨rfl, rfl, rfl⟩

/-- C5: when the parser returned `p` and the remote update call fails with `E`, create (resp.
update) returns the error `error creating <policy type> policy: <E>` (resp. `error updating`),
the only remote call made is that update (no get), and the resource data, identifier and `rule`
attribute included, is what it was; when the remote get call fails with `E`, read returns
`error reading <policy type> policy: <E>` and leaves the resource data as it was.  Each text
contains the policy-type name and `E`. -/
theorem remote_error_propagation {σ : Type} (env : Env) (fw : Framework) (client : Client σ)
    (d : ResourceData) (w : World σ) (E : String) :
    (∀ p : CompliancePolicy, parseComplianceContainerPolicy env d = some (some p, none) →
      (client.UpdateComplianceContainer w.remote p).1 = some E →
      (∃ (o : Outcome σ) (text : String),
        createPolicyComplianceContainer env fw client d w = some o ∧ o.err = some text ∧
        text = "error creating " ++ env.policyTypeComplianceContainer ++ " policy: " ++ E ∧
        containsText text env.policyTypeComplianceContainer ∧ containsText text E ∧
        o.w.calls = w.calls ++ [Call.update p] ∧
        o.d.id = d.id ∧ o.d.attrs "rule" = d.attrs "rule" ∧ o.d = d) ∧
      (∃ (o : Outcome σ) (text : String),
        updatePolicyComplianceContainer env fw client d w = some o ∧ o.err = some text ∧
        text = "error updating " ++ env.policyTypeComplianceContainer ++ " policy: " ++ E ∧
        containsText text env.policyTypeComplianceContainer ∧ containsText text E ∧
        o.w.calls = w.calls ++ [Call.update p] ∧
        o.d.id = d.id ∧ o.d.attrs "rule" = d.attrs "rule" ∧ o.d = d)) ∧
    ((client.GetComplianceContainer w.remote).2.1 = some E →
      ∃ text : String, (readPolicyComplianceContainer env fw client d w).err = some text ∧
        text = "error reading " ++ env.policyTypeComplianceContainer ++ " policy: " ++ E ∧
        containsText text env.policyTypeComplianceContainer ∧ containsText text E ∧
        (readPolicyComplianceContainer env fw client d w).d.attrs "rule" = d.attrs "rule" ∧
        (readPolicyComplianceContainer env fw client d w).d = d) := by
  refine ⟨fun p hp hu => ⟨?_, ?_⟩, fun hg => ?_⟩
  · exact ⟨_, _, create_update_failed env fw client d w p E hp hu, rfl, rfl,
      (wrapped_contains _ _ _).1, (wrapped_contains _ _ _).2, rfl, rfl, rfl, rfl⟩
  · exact ⟨_, _, update_update_failed env fw client d w p E hp hu, rfl, rfl,
      (wrapped_contains _ _ _).1, (wrapped_contains _ _ _).2, rfl, rfl, rfl, rfl⟩
  · rw [read_get_failed env fw client d w E hg]
    exact ⟨_, rfl, rfl, (wrapped_contains _ _ _).1, (wrapped_contains _ _ _).2, rfl, rfl⟩

/-- C5, at the example configuration against a service whose every call fails with `boom`. -/
theorem remote_error_propagation_witness :
    ((∃ (o : Outcome Unit) (text : String),
        createPolicyComplianceContainer (specEnv samplePolicyType) acceptAll failingClient
          (dataWith "" [sampleRule]) ⟨(), []⟩ = some o ∧ o.err = some text ∧
        text = "error creating " ++ (specEnv samplePolicyType).policyTypeComplianceContainer ++
          " policy: " ++ "boom" ∧
        containsText text (specEnv samplePolicyType).policyTypeComplianceContainer ∧
        containsText text "boom" ∧
        o.w.calls = [] ++ [Call.update samplePolicy] ∧
        o.d.id = (dataWith "" [sampleRule]).id ∧
        o.d.attrs "rule" = (dataWith "" [sampleRule]).attrs "rule" ∧
        o.d = dataWith "" [sampleRule]) ∧
      (∃ (o : Outcome Unit) (text : String),
        updatePolicyComplianceContainer (specEnv samplePolicyType) acceptAll failingClient
          (dataWith "" [sampleRule]) ⟨(), []⟩ = some o ∧ o.err = some text ∧
        text = "error updating " ++ (specEnv samplePolicyType).policyTypeComplianceContainer ++
          " policy: " ++ "boom" ∧
        containsText text (specEnv samplePolicyType).policyTypeComplianceContainer ∧
        containsText text "boom" ∧
        o.w.calls = [] ++ [Call.update samplePolicy] ∧
        o.d.id = (dataWith "" [sampleRule]).id ∧
        o.d.attrs "rule" = (dataWith "" [sampleRule]).attrs "rule" ∧
        o.d = dataWith "" [sampleRule])) ∧
    (∃ text : String,
      (readPolicyComplianceContainer (specEnv samplePolicyType) acceptAll failingClient
        (dataWith "" [sampleRule]) ⟨(), []⟩).err = some text ∧
      text = "error reading " ++ (specEnv samplePolicyType).policyTypeComplianceContainer ++
        " policy: " ++ "boom" ∧
      containsText text (specEnv samplePolicyType).policyTypeComplianceContainer ∧
      containsText text "boom" ∧
      (readPolicyComplianceContainer (specEnv samplePolicyType) acceptAll failingClient
        (dataWith "" [sampleRule]) ⟨(), []⟩).d.attrs "rule" =
          (dataWith "" [sampleRule]).attrs "rule" ∧
      (readPolicyComplianceContainer (specEnv samplePolicyType) acceptAll failingClient
        (dataWith "" [sampleRule]) ⟨(), []⟩).d = dataWith "" [sampleRule]) :=
  ⟨(remote_error_propagation (specEnv samplePolicyType) acceptAll failingClient
      (dataWith "" [sampleRule]) ⟨(), []⟩ "boom").1 samplePolicy rfl rfl,
    (remote_error_propagation (specEnv samplePolicyType) acceptAll failingClient
      (dataWith "" [sampleRule]) ⟨(), []⟩ "boom").2 rfl⟩

/-- C6, refuted as stated: create on the example configuration with the identifier unset,
against a service that accepts the update and fails the refreshing get, returns the error
`error reading complianceContainer policy: boom`, and the identifier, which was empty before
the call, is `complianceContainer` after it. -/
theorem create_failure_changes_identifier :
    ∃ o : Outcome Unit,
      createPolicyComplianceContainer (specEnv samplePolicyType) acceptAll readFailingClient
        (dataWith "" [sampleRule]) ⟨(), []⟩ = some o ∧
      o.err = some "error reading complianceContainer policy: boom" ∧
      (dataWith "" [sampleRule]).id = "" ∧
      o.d.id = "complianceContainer" ∧
      o.d.id ≠ (dataWith "" [sampleRule]).id ∧
      o.w.calls = [Call.update samplePolicy, Call.get] :=
  ⟨_, rfl, by decide, rfl, rfl, by decide, rfl⟩

/-- C6, as amended: provided a write the framework rejects leaves the `rule` attribute as it
was, whenever update returns an error the resource data is exactly what it was before the call,
and whenever create returns an error every attribute is what it was before the call, while the
identifier is what it was when the remote update call failed and is the policy-type constant
when the remote update call succeeded (the error then comes from the refreshing read). -/
theorem failure_leaves_attributes {σ : Type} (env : Env) (fw : Framework) (client : Client σ)
    (d : ResourceData) (w : World σ)
    (hres : ∀ old v : Value, fw.residue "rule" old v = old) :
    (∀ o : Outcome σ, updatePolicyComplianceContainer env fw client d w = some o →
      o.err ≠ none → o.d = d) ∧
    (∀ o : Outcome σ, createPolicyComplianceContainer env fw client d w = some o →
      o.err ≠ none →
      o.d.attrs = d.attrs ∧
      ∀ p : CompliancePolicy, parseComplianceContainerPolicy env d = some (some p, none) →
        ((client.UpdateComplianceContainer w.remote p).1 ≠ none → o.d = d) ∧
        ((client.UpdateComplianceContainer w.remote p).1 = none →
          o.d.id = env.policyTypeComplianceContainer)) := by
  have hread : ∀ (d0 : ResourceData) (w0 : World σ),
      (readPolicyComplianceContainer env fw client d0 w0).err ≠ none →
      (readPolicyComplianceContainer env fw client d0 w0).d = d0 := by
    intro d0 w0 herr
    cases hg : (client.GetComplianceContainer w0.remote).2.1 with
    | some E => rw [read_get_failed env fw client d0 w0 E hg]
    | none =>
      cases hs : fw.verdict "rule" (Value.list (flattenPolicyComplianceContainerRules env
          (client.GetComplianceContainer w0.remote).1.Rules)) with
      | none =>
        rw [read_accepted env fw client d0 w0 hg hs] at herr
        exact absurd rfl herr
      | some E =>
        rw [read_rejected env fw client d0 w0 E hg hs, hres, GoMap.set_self]
  constructor
  · intro o ho herr
    cases hparse : parseComplianceContainerPolicy env d with
    | none => simp [updatePolicyComplianceContainer, hparse] at ho
    | some xe =>
      obtain ⟨x, e⟩ := xe
      obtain ⟨rfl, p, rfl⟩ := parse_returns env d x e hparse
      cases hu : (client.UpdateComplianceContainer w.remote p).1 with
      | some E =>
        rw [update_update_failed env fw client d w p E hparse hu] at ho
        cases ho
        rfl
      | none =>
        rw [update_update_succeeded env fw client d w p hparse hu] at ho
        cases ho
        exact hread _ _ herr
  · intro o ho herr
    cases hparse : parseComplianceContainerPolicy env d with
    | none => simp [createPolicyComplianceContainer, hparse] at ho
    | some xe =>
      obtain ⟨x, e⟩ := xe
      obtain ⟨rfl, p, rfl⟩ := parse_returns env d x e hparse
      cases hu : (client.UpdateComplianceContainer w.remote p).1 with
      | some E =>
        rw [create_update_failed env fw client d w p E hparse hu] at ho
        cases ho
        refine ⟨rfl, ?_⟩
        intro p2 hp2
        cases hp2
        exact ⟨fun _ => rfl, fun h => by rw [hu] at h; cases h⟩
      | none =>
        rw [create_update_succeeded env fw client d w p hparse hu] at ho
        cases ho
        have hd := hread _ _ herr
        refine ⟨by rw [hd]; rfl, ?_⟩
        intro p2 hp2
        cases hp2
        exact ⟨fun h => absurd hu h, fun _ => by rw [hd]; rfl⟩

/-- C6 as amended, at the refuting input: the attributes are unchanged and the identifier is
the policy-type constant. -/
theorem failure_leaves_attributes_witness :
    (∀ old v : Value, acceptAll.residue "rule" old v = old) ∧
    ((∀ o : Outcome Unit, updatePolicyComplianceContainer (specEnv samplePolicyType) acceptAll
        readFailingClient (dataWith "" [sampleRule]) ⟨(), []⟩ = some o →
      o.err ≠ none → o.d = dataWith "" [sampleRule]) ∧
    (∀ o : Outcome Unit, createPolicyComplianceContainer (specEnv samplePolicyType) acceptAll
        readFailingClient (dataWith "" [sampleRule]) ⟨(), []⟩ = some o →
      o.err ≠ none →
      o.d.attrs = (dataWith "" [sampleRule]).attrs ∧
      ∀ p : CompliancePolicy,
        parseComplianceContainerPolicy (specEnv samplePolicyType) (dataWith "" [sampleRule]) =
          some (some p, none) →
        ((readFailingClient.UpdateComplianceContainer () p).1 ≠ none →
          o.d = dataWith "" [sampleRule]) ∧
        ((readFailingClient.UpdateComplianceContainer () p).1 = none →
          o.d.id = (specEnv samplePolicyType).policyTypeComplianceContainer))) :=
  ⟨fun _ _ => rfl, failure_leaves_attributes (specEnv samplePolicyType) acceptAll
    readFailingClient (dataWith "" [sampleRule]) ⟨(), []⟩ (fun _ _ => rfl)⟩

/-- C7: for every resource data, client and world, delete returns the nil error, adds nothing
to the log of remote calls, and leaves the resource data and the remote service state as they
were. -/
theorem delete_is_noop {σ : Type} (client : Client σ) (d : ResourceData) (w : World σ) :
    (deletePolicyComplianceContainer client d w).err = none ∧
    (deletePolicyComplianceContainer client d w).w.calls = w.calls ∧
    (deletePolicyComplianceContainer client d w).d = d ∧
    (deletePolicyComplianceContainer client d w).w.remote = w.remote :=
  ⟨rfl, rfl, rfl, rfl⟩

/-- C8: when the remote get succeeds with policy `P` and the framework accepts the write, read
returns the nil error, the `rule` attribute afterwards is the flattened `P.Rules` whatever it
held before, the identifier and every other attribute are unchanged, and the only remote call
made is the get. -/
theorem read_full_replace {σ : Type} (env : Env) (fw : Framework) (client : Client σ)
    (d : ResourceData) (w : World σ)
    (hg : (client.GetComplianceContainer w.remote).2.1 = none)
    (hs : fw.verdict "rule" (Value.list (flattenPolicyComplianceContainerRules env
      (client.GetComplianceContainer w.remote).1.Rules)) = none) :
    (readPolicyComplianceContainer env fw client d w).err = none ∧
    (readPolicyComplianceContainer env fw client d w).d.attrs "rule" =
      Value.list (flattenPolicyComplianceContainerRules env
        (client.GetComplianceContainer w.remote).1.Rules) ∧
    (∀ prior : Value,
      (readPolicyComplianceContainer env fw client
        (ResourceData.mk d.id (GoMap.set d.attrs "rule" prior)) w).d =
      (readPolicyComplianceContainer env fw client d w).d) ∧
    (readPolicyComplianceContainer env fw client d w).d.id = d.id ∧
    (∀ k : String, k ≠ "rule" →
      (readPolicyComplianceContainer env fw client d w).d.attrs k = d.attrs k) ∧
    (readPolicyComplianceContainer env fw client d w).w.calls = w.calls ++ [Call.get] := by
  refine ⟨?_, ?_, ?_, read_id env fw client d w,
    fun k hk => read_other_attrs env fw client d w k hk, read_calls env fw client d w⟩
  · rw [read_accepted env fw client d w hg hs]
  · rw [read_accepted env fw client d w hg hs]
    simp [GoMap.set]
  · intro prior
    rw [read_accepted env fw client d w hg hs, read_accepted env fw client _ w hg hs]
    simp only [GoMap.set_set]

/-- C8, at resource data holding the example rule, against the store holding the example
policy. -/
theorem read_full_replace_witness :
    (readPolicyComplianceContainer (specEnv samplePolicyType) acceptAll storeClient
      (dataWith "x" [sampleRule]) ⟨samplePolicy, []⟩).err = none ∧
    (readPolicyComplianceContainer (specEnv samplePolicyType) acceptAll storeClient
      (dataWith "x" [sampleRule]) ⟨samplePolicy, []⟩).d.attrs "rule" =
      Value.list (flattenPolicyComplianceContainerRules (specEnv samplePolicyType)
        (storeClient.GetComplianceContainer samplePolicy).1.Rules) ∧
    (∀ prior : Value,
      (readPolicyComplianceContainer (specEnv samplePolicyType) acceptAll storeClient
        (ResourceData.mk (dataWith "x" [sampleRule]).id
          (GoMap.set (dataWith "x" [sampleRule]).attrs "rule" prior)) ⟨samplePolicy, []⟩).d =
      (readPolicyComplianceContainer (specEnv samplePolicyType) acceptAll storeClient
        (dataWith "x" [sampleRule]) ⟨samplePolicy, []⟩).d) ∧
    (readPolicyComplianceContainer (specEnv samplePolicyType) acceptAll storeClient
      (dataWith "x" [sampleRule]) ⟨samplePolicy, []⟩).d.id = (dataWith "x" [sampleRule]).id ∧
    (∀ k : String, k ≠ "rule" →
      (readPolicyComplianceContainer (specEnv samplePolicyType) acceptAll storeClient
        (dataWith "x" [sampleRule]) ⟨samplePolicy, []⟩).d.attrs k =
          (dataWith "x" [sampleRule]).attrs k) ∧
    (readPolicyComplianceContainer (specEnv samplePolicyType) acceptAll storeClient
      (dataWith "x" [sampleRule]) ⟨samplePolicy, []⟩).w.calls = [] ++ [Call.get] :=
  read_full_replace (specEnv samplePolicyType) acceptAll storeClient
    (dataWith "x" [sampleRule]) ⟨samplePolicy, []⟩ rfl rfl

/-- C9: when the parser returned `p` and the remote update call succeeds, create makes exactly
one update call, carrying `p`, sets the identifier to the policy-type constant whatever it was,
and returns exactly what read returns on that state; the calls it adds to the log are that
update followed by the read's get. -/
theorem create_success_path {σ : Type} (env : Env) (fw : Framework) (client : Client σ)
    (d : ResourceData) (w : World σ) (p : CompliancePolicy)
    (hp : parseComplianceContainerPolicy env d = some (some p, none))
    (hu : (client.UpdateComplianceContainer w.remote p).1 = none) :
    createPolicyComplianceContainer env fw client d w =
      some (readPolicyComplianceContainer env fw client
        (d.SetId env.policyTypeComplianceContainer)
        ⟨(client.UpdateComplianceContainer w.remote p).2, w.calls ++ [Call.update p]⟩) ∧
    (d.SetId env.policyTypeComplianceContainer).id = env.policyTypeComplianceContainer ∧
    (d.SetId env.policyTypeComplianceContainer).attrs = d.attrs ∧
    ∃ o : Outcome σ, createPolicyComplianceContainer env fw client d w = some o ∧
      o.w.calls = w.calls ++ [Call.update p, Call.get] ∧
      o.d.id = env.policyTypeComplianceContainer := by
  have h := create_update_succeeded env fw client d w p hp hu
  refine ⟨h, rfl, rfl, _, h, ?_, ?_⟩
  · rw [read_calls]
    simp [World.update]
  · rw [read_id]
    rfl

/-- C9, at the example configuration with a stale identifier, against the store. -/
theorem create_success_path_witness :
    createPolicyComplianceContainer (specEnv samplePolicyType) acceptAll storeClient
        (dataWith "stale" [sampleRule]) ⟨{ Type_ := "", Rules := Slice.nil }, []⟩ =
      some (readPolicyComplianceContainer (specEnv samplePolicyType) acceptAll storeClient
        ((dataWith "stale" [sampleRule]).SetId
          (specEnv samplePolicyType).policyTypeComplianceContainer)
        ⟨(storeClient.UpdateComplianceContainer { Type_ := "", Rules := Slice.nil }
            samplePolicy).2, [] ++ [Call.update samplePolicy]⟩) ∧
    ((dataWith "stale" [sampleRule]).SetId
      (specEnv samplePolicyType).policyTypeComplianceContainer).id =
        (specEnv samplePolicyType).policyTypeComplianceContainer ∧
    ((dataWith "stale" [sampleRule]).SetId
      (specEnv samplePolicyType).policyTypeComplianceContainer).attrs =
        (dataWith "stale" [sampleRule]).attrs ∧
    ∃ o : Outcome CompliancePolicy,
      createPolicyComplianceContainer (specEnv samplePolicyType) acceptAll storeClient
        (dataWith "stale" [sampleRule]) ⟨{ Type_ := "", Rules := Slice.nil }, []⟩ = some o ∧
      o.w.calls = [] ++ [Call.update samplePolicy, Call.get] ∧
      o.d.id = (specEnv samplePolicyType).policyTypeComplianceContainer :=
  create_success_path (specEnv samplePolicyType) acceptAll storeClient
    (dataWith "stale" [sampleRule]) ⟨{ Type_ := "", Rules := Slice.nil }, []⟩ samplePolicy
    rfl rfl

/-- C10: against the store, if update on resource data `d` (carrying the configuration in its
`rule` attribute) returns, then update called again on the state the first call left, with the
same configuration supplied again, returns too, with the same error result, the same resource
data (identifier and flattened `rule` attribute) and the same stored remote policy as the first
call. -/
theorem update_idempotent (env : Env) (fw : Framework) (d : ResourceData)
    (w : World CompliancePolicy) (o₁ : Outcome CompliancePolicy)
    (h₁ : updatePolicyComplianceContainer env fw storeClient d w = some o₁) :
    ∃ o₂ : Outcome CompliancePolicy,
      updatePolicyComplianceContainer env fw storeClient (resupply d o₁.d) o₁.w = some o₂ ∧
      o₂.err = o₁.err ∧ o₂.d = o₁.d ∧ o₂.w.remote = o₁.w.remote ∧
      o₂.d.id = d.id := by
  cases hparse : parseComplianceContainerPolicy env d with
  | none => simp [updatePolicyComplianceContainer, hparse] at h₁
  | some xe =>
    obtain ⟨x, e⟩ := xe
    obtain ⟨rfl, p, rfl⟩ := parse_returns env d x e hparse
    rw [update_update_succeeded env fw storeClient d w p hparse rfl] at h₁
    cases h₁
    rw [resupply_read]
    refine ⟨_, update_update_succeeded env fw storeClient d _ p hparse rfl, ?_⟩
    have hremote := (read_store env fw d p (w.calls ++ [Call.update p]) []).2.2
    have hsame := read_store env fw d p
      ((readPolicyComplianceContainer env fw storeClient d
        (w.update storeClient p).2).w.calls ++ [Call.update p]) (w.calls ++ [Call.update p])
    refine ⟨hsame.1, hsame.2.1, ?_, ?_⟩
    · exact hsame.2.2.trans hremote.symm
    · exact read_id _ _ _ _ _

/-- C10, at the example configuration, against the store holding an empty policy. -/
theorem update_idempotent_witness :
    ∃ o₁ : Outcome CompliancePolicy,
      updatePolicyComplianceContainer (specEnv samplePolicyType) acceptAll storeClient
        (dataWith "complianceContainer" [sampleRule, bareRule])
        ⟨{ Type_ := "", Rules := Slice.nil }, []⟩ = some o₁ ∧
      ∃ o₂ : Outcome CompliancePolicy,
        updatePolicyComplianceContainer (specEnv samplePolicyType) acceptAll storeClient
          (resupply (dataWith "complianceContainer" [sampleRule, bareRule]) o₁.d) o₁.w =
            some o₂ ∧
        o₂.err = o₁.err ∧ o₂.d = o₁.d ∧ o₂.w.remote = o₁.w.remote ∧
        o₂.d.id = (dataWith "complianceContainer" [sampleRule, bareRule]).id :=
  ⟨_, rfl, update_idempotent (specEnv samplePolicyType) acceptAll
    (dataWith "complianceContainer" [sampleRule, bareRule])
    ⟨{ Type_ := "", Rules := Slice.nil }, []⟩ _ rfl⟩

end PrismaCloudCompute
